import Mathlib

/-!
Verification development for the GBM data-cleaning scripts
(`gene.py` and `gene_chunk.py`).

The scripts are shallowly embedded:
a `DataFrame` is a list of column names together with a list of rows,
column names are lists of characters, cell values are strings, integers
or the missing marker (pandas `NaN`).  Each pandas operation used by the
scripts (`clean_col_names`, `isin` filtering, `pd.to_numeric` with
`errors="coerce"`, `pd.melt`, `Series.unique`) is translated into an
executable Lean function, and the two top-level scripts become the
functions `genePipeline` and `chunkPipeline`.  Numeric parsing is kept
abstract: every definition is parameterised by `parse : String → Option Int`,
standing for the pandas string-to-number conversion.
-/

namespace GBM

/-! ### Character-level model of `clean_col_names` -/

/-- Column names are modelled as lists of characters. -/
abbrev Name := List Char

/-- Test for an ASCII upper-case letter (codepoints 65–90). -/
def isUpperCh (c : Char) : Bool :=
  decide (65 ≤ c.toNat) && decide (c.toNat ≤ 90)

/-- Test for an ASCII lower-case letter (codepoints 97–122). -/
def isLowerCh (c : Char) : Bool :=
  decide (97 ≤ c.toNat) && decide (c.toNat ≤ 122)

/-- Test for an ASCII digit (codepoints 48–57). -/
def isDigitCh (c : Char) : Bool :=
  decide (48 ≤ c.toNat) && decide (c.toNat ≤ 57)

/-- Test for the underscore character (codepoint 95). -/
def undCh (c : Char) : Bool :=
  decide (c.toNat = 95)

/-- Test for the regex class `[a-zA-Z0-9_]` used in
`re.sub(r"[^a-zA-Z0-9_]", "_", new_col)`. -/
def isWordCh (c : Char) : Bool :=
  isLowerCh c || isUpperCh c || isDigitCh c || undCh c

/-- Model of `str.lower()` on one character: ASCII upper-case letters are
shifted by 32, every other character is unchanged. -/
def lowerChar (c : Char) : Char :=
  if isUpperCh c then Char.ofNat (c.toNat + 32) else c

/-- Model of `re.sub(r"[^a-zA-Z0-9_]", "_", s)`: every character outside
`[a-zA-Z0-9_]` is replaced by an underscore. -/
def replaceNonWord (s : Name) : Name :=
  s.map (fun c => if isWordCh c then c else '_')

/-- Model of `re.sub(r"_+", "_", s)`: every maximal run of underscores is
collapsed to a single underscore.  The flag records whether the previous
character kept was an underscore. -/
def collapseAux : Bool → Name → Name
  | _, [] => []
  | b, c :: rest =>
    if undCh c then
      if b then collapseAux true rest
      else c :: collapseAux true rest
    else c :: collapseAux false rest

/-- Collapse runs of underscores, starting outside a run. -/
def collapseUnd (s : Name) : Name :=
  collapseAux false s

/-- Model of `new_col[1:]` applied when `new_col.startswith("_")`
(only present in `gene_chunk.py`). -/
def stripLeadUnd : Name → Name
  | [] => []
  | c :: rest => if undCh c then rest else c :: rest

/-- One column name through the body of `clean_col_names` in `gene.py`:
lower-case, replace characters outside `[a-zA-Z0-9_]` by `_`, collapse
runs of `_`. -/
def clean_col_name (s : Name) : Name :=
  collapseUnd (replaceNonWord (s.map lowerChar))

/-- One column name through the body of `clean_col_names` in
`gene_chunk.py`: lower-case, drop one leading underscore if present,
replace characters outside `[a-zA-Z0-9_]` by `_`, collapse runs of `_`. -/
def clean_col_name_chunk (s : Name) : Name :=
  collapseUnd (replaceNonWord (stripLeadUnd (s.map lowerChar)))

/-- The property claimed by the specification for normalized names:
nonempty, every character in `[a-z0-9_]`, no leading underscore, no
trailing underscore, no doubled underscore.  `noDblUnd` is defined
below; this predicate is assembled after it. -/
def isOutCh (c : Char) : Bool :=
  isLowerCh c || isDigitCh c || undCh c

/-- Test that a name has no two adjacent underscores. -/
def noDblUnd : Name → Bool
  | [] => true
  | [_] => true
  | c :: c' :: rest => !(undCh c && undCh c') && noDblUnd (c' :: rest)

/-- The full property stated by the specification for one normalized
column name: it matches `^[a-z0-9_]+$` and has no leading, trailing or
doubled underscore. -/
def specNormalized (s : Name) : Bool :=
  !s.isEmpty && s.all isOutCh &&
    !(s.head?.any undCh) && !(s.getLast?.any undCh) && noDblUnd s

/-! ### Data model: cell values and data frames -/

/-- A cell value: a string, a (finite) number, or the missing marker
(pandas `NaN`). -/
inductive Value where
  | str : String → Value
  | num : Int → Value
  | missing : Value
deriving DecidableEq, Repr

/-- A data frame: named columns over a list of rows.  Row `r` stores the
value of column `j` at position `j`. -/
structure DataFrame where
  cols : List Name
  rows : List (List Value)
deriving DecidableEq, Repr

/-- The value of row `r` in column position `i` (missing when the row is
too short, which never happens for well-formed frames). -/
def entry (r : List Value) (i : Nat) : Value :=
  r.getD i Value.missing

/-- Position of the first column with the given name, as in
`df["name"]` / `id_vars` lookup. -/
def idxOfName (n : Name) : List Name → Option Nat
  | [] => none
  | c :: rest => if c = n then some 0 else (idxOfName n rest).map (· + 1)

/-- Position of a named column in a frame. -/
def columnIndex (df : DataFrame) (n : Name) : Option Nat :=
  idxOfName n df.cols

/-- The list of values of the column at position `i`
(model of `df["name"]` once the position is resolved). -/
def columnValues (df : DataFrame) (i : Nat) : List Value :=
  df.rows.map (fun r => entry r i)

/-- The frame-level `clean_col_names` of `gene.py`: rename every column,
leave all cell data untouched (`df.columns = new_cols`). -/
def clean_col_names (df : DataFrame) : DataFrame :=
  { df with cols := df.cols.map clean_col_name }

/-- The frame-level `clean_col_names` of `gene_chunk.py`. -/
def clean_col_names_chunk (df : DataFrame) : DataFrame :=
  { df with cols := df.cols.map clean_col_name_chunk }

/-- Model of `df[df["sample_id"].isin(ids)]` where the sample-id column
sits at position `i`: keep exactly the rows whose id is in `ids`. -/
def filterBySampleIds (ids : List Value) (i : Nat) (df : DataFrame) : DataFrame :=
  { df with rows := df.rows.filter (fun r => decide (entry r i ∈ ids)) }

/-- Model of `pd.to_numeric(v, errors="coerce")` on one cell: numbers
and the missing marker pass through, a string becomes a number if it
parses and the missing marker otherwise — never zero, never an error. -/
def coerceValue (parse : String → Option Int) : Value → Value
  | Value.str s =>
    match parse s with
    | some n => Value.num n
    | none => Value.missing
  | Value.num n => Value.num n
  | Value.missing => Value.missing

/-- Model of `if col in df.columns: df[col] = pd.to_numeric(df[col], errors="coerce")`:
coerce one named column in place when it exists, otherwise leave the
frame unchanged. -/
def coerceStep (parse : String → Option Int) (df : DataFrame) (n : Name) : DataFrame :=
  match columnIndex df n with
  | none => df
  | some i =>
    { df with rows := df.rows.map (fun r => r.set i (coerceValue parse (entry r i))) }

/-- Model of the coercion loop `for col in names: ...` over a list of
column names. -/
def coerceCols (parse : String → Option Int) (names : List Name) (df : DataFrame) : DataFrame :=
  names.foldl (coerceStep parse) df

/-- The effect of the whole coercion loop on a single row, used to
re-express `coerceCols` row by row. -/
def rowStep (parse : String → Option Int) (cols : List Name) (r : List Value) (n : Name) : List Value :=
  match idxOfName n cols with
  | none => r
  | some i => r.set i (coerceValue parse (entry r i))

/-- Fold of `rowStep` over a list of column names. -/
def rowFold (parse : String → Option Int) (cols : List Name) (names : List Name) (r : List Value) : List Value :=
  names.foldl (rowStep parse cols) r

/-- The column name `sample_id`. -/
def sampleIdName : Name := "sample_id".toList

/-- The column name `gene_symbol` produced by the melt. -/
def geneSymbolName : Name := "gene_symbol".toList

/-- The column name `expression_value` produced by the melt. -/
def expressionValueName : Name := "expression_value".toList

/-- The four designated numeric clinical columns of `gene.py`
(`numeric_clinical_cols`). -/
def numeric_clinical_cols : List Name :=
  ["age_at_initial_pathologic_diagnosis".toList,
   "initial_pathologic_dx_year".toList,
   "birth_days_to".toList,
   "death_days_to".toList]

/-- The rows produced by
`pd.melt(df, id_vars=["sample_id"], var_name="gene_symbol", value_name="expression_value")`
when the id column sits at position `i`: one output row
`[id, gene name, cell]` per (gene column, input row) pair, gene columns
enumerated in frame order, rows in input order within each gene. -/
def meltRows (df : DataFrame) (i : Nat) : List (List Value) :=
  (((List.range df.cols.length).filter (fun j => decide ¬(j = i))).map
    (fun j => df.rows.map
      (fun r => [entry r i, Value.str (String.mk (df.cols.getD j [])), entry r j]))).flatten

/-- The full melt: three fixed output columns over `meltRows`. -/
def melt (df : DataFrame) (i : Nat) : DataFrame :=
  { cols := [sampleIdName, geneSymbolName, expressionValueName],
    rows := meltRows df i }

/-- Model of `Series.unique()`: distinct values in order of first
occurrence.  `seen` accumulates the values already emitted. -/
def uniqAux (seen : List Value) : List Value → List Value
  | [] => []
  | v :: rest =>
    if v ∈ seen then uniqAux seen rest
    else v :: uniqAux (v :: seen) rest

/-- Distinct values of a list in order of first occurrence. -/
def uniqueInOrder (l : List Value) : List Value :=
  uniqAux [] l

/-- The clinical branch of `gene.py`: clean the column names, then
coerce the four designated numeric columns.  The clinical table is
never row-filtered. -/
def clinical_stage (parse : String → Option Int) (df : DataFrame) : DataFrame :=
  coerceCols parse numeric_clinical_cols (clean_col_names df)

/-- The whole `gene.py` script.  The three `Option DataFrame` inputs
model the three `pd.read_csv` calls: `none` is a missing file, in which
case the `except FileNotFoundError` branch runs `exit()` and no output
is produced.  A missing `sample_id` column would raise a `KeyError` in
pandas, modelled by the `.error` branches.  On success the three values
of the `.ok` result are exactly the three frames written by `to_csv`. -/
def genePipeline (parse : String → Option Int)
    (clinical? survival? expression? : Option DataFrame) :
    Except String (DataFrame × DataFrame × DataFrame) :=
  match clinical?, survival?, expression? with
  | some c0, some s0, some e0 =>
    let c := clean_col_names c0
    let s := clean_col_names s0
    let e := clean_col_names e0
    match columnIndex c sampleIdName with
    | none => Except.error ("KeyError: sample_id (clinical)")
    | some ic =>
      let masterIds := columnValues c ic
      match columnIndex s sampleIdName with
      | none => Except.error ("KeyError: sample_id (survival)")
      | some iS =>
        match columnIndex e sampleIdName with
        | none => Except.error ("KeyError: sample_id (expression)")
        | some iE =>
          let sClean := filterBySampleIds masterIds iS s
          let eClean := filterBySampleIds masterIds iE e
          let c2 := clinical_stage parse c0
          let s2 := coerceCols parse
            (sClean.cols.filter (fun n => decide ¬(n = sampleIdName))) sClean
          match columnIndex eClean sampleIdName with
          | none => Except.error ("KeyError: sample_id (melt)")
          | some iM =>
            Except.ok (c2, s2,
              coerceCols parse [expressionValueName] (melt eClean iM))
  | _, _, _ => Except.error ("FileNotFoundError")

/-- The whole `gene_chunk.py` script: load the raw expression table,
take the first six distinct sample ids, filter to them, clean the
column names, melt, coerce the value column.  The single `.ok` frame is
the single file written by `to_csv`. -/
def chunkPipeline (parse : String → Option Int) (raw? : Option DataFrame) :
    Except String DataFrame :=
  match raw? with
  | none => Except.error ("FileNotFoundError")
  | some raw =>
    match columnIndex raw sampleIdName with
    | none => Except.error ("KeyError: sample_id")
    | some i =>
      let keep := (uniqueInOrder (columnValues raw i)).take 6
      let subset := filterBySampleIds keep i raw
      let cleaned := clean_col_names_chunk subset
      match columnIndex cleaned sampleIdName with
      | none => Except.error ("KeyError: sample_id (melt)")
      | some j =>
        Except.ok (coerceCols parse [expressionValueName] (melt cleaned j))

/-- Test that a coerced cell is a number or the missing marker — i.e.
not a raw string. -/
def isNumOrMissing : Value → Bool
  | Value.str _ => false
  | Value.num _ => true
  | Value.missing => true

/-! ### Concrete data used to instantiate the theorems -/

/-- A concrete numeric parser standing in for the pandas string-to-number
conversion, used to instantiate the `parse` parameter in witnesses: it
accepts nonempty all-digit strings and rejects everything else. -/
def parseEx (s : String) : Option Int :=
  if s.data ≠ [] ∧ s.data.all isDigitCh then
    some (Int.ofNat (s.data.foldl (fun a c => 10 * a + (c.toNat - 48)) 0))
  else none

/-- A one-row table whose two column names have leading/trailing blanks. -/
def exC1 : DataFrame :=
  { cols := [" foo".toList, "foo ".toList],
    rows := [[Value.num 1, Value.num 2]] }

/-- A wide expression table: two samples, two gene columns. -/
def exprEx : DataFrame :=
  { cols := [sampleIdName, "tp53".toList, "egfr".toList],
    rows := [[Value.str ("S1"), Value.num 5, Value.num 6],
             [Value.str ("S2"), Value.num 7, Value.num 8]] }

/-- A master (clinical) table with samples S1, S2. -/
def masterEx : DataFrame :=
  { cols := [sampleIdName],
    rows := [[Value.str ("S1")], [Value.str ("S2")]] }

/-- A dependent table with samples S1, S3 (S3 is not in the master). -/
def depEx : DataFrame :=
  { cols := [sampleIdName, "os".toList],
    rows := [[Value.str ("S1"), Value.num 10],
             [Value.str ("S3"), Value.num 20]] }

/-- A clinical table carrying the placeholder text `not reported` in the
designated numeric column `death_days_to`. -/
def clinEx5 : DataFrame :=
  { cols := [sampleIdName, "death_days_to".toList],
    rows := [[Value.str ("S1"), Value.str ("not reported")],
             [Value.str ("S2"), Value.num 100]] }

/-- A minimal clinical input for the full pipeline. -/
def cEx6 : DataFrame :=
  { cols := [sampleIdName], rows := [[Value.str ("S1")]] }

/-- A minimal survival input for the full pipeline. -/
def sEx6 : DataFrame :=
  { cols := [sampleIdName, "os_days".toList],
    rows := [[Value.str ("S1"), Value.num 3]] }

/-- A minimal expression input for the full pipeline. -/
def eEx6 : DataFrame :=
  { cols := [sampleIdName, "tp53".toList],
    rows := [[Value.str ("S1"), Value.num 7]] }

/-- A raw expression table with seven distinct sample ids. -/
def rawEx7 : DataFrame :=
  { cols := [sampleIdName, "tp53".toList],
    rows := [[Value.str ("S1"), Value.num 1],
             [Value.str ("S2"), Value.num 2],
             [Value.str ("S3"), Value.num 3],
             [Value.str ("S4"), Value.num 4],
             [Value.str ("S5"), Value.num 5],
             [Value.str ("S6"), Value.num 6],
             [Value.str ("S7"), Value.num 7]] }

/-- The clinical table of the spec's example scenario: samples S1, S2, S3. -/
def clinEx8 : DataFrame :=
  { cols := [sampleIdName],
    rows := [[Value.str ("S1")], [Value.str ("S2")], [Value.str ("S3")]] }

/-- The survival table of the spec's example scenario: one row each for
S1, S2 and S4. -/
def survEx8 : DataFrame :=
  { cols := [sampleIdName, "os_time".toList],
    rows := [[Value.str ("S1"), Value.num 1],
             [Value.str ("S2"), Value.num 2],
             [Value.str ("S4"), Value.num 4]] }

/-- A clinical table with one non-designated column (`gender`) next to a
designated numeric one (`death_days_to`). -/
def clinEx9 : DataFrame :=
  { cols := [sampleIdName, "gender".toList, "death_days_to".toList],
    rows := [[Value.str ("S1"), Value.str ("female"), Value.str ("x")]] }

/-- A raw expression table with only two distinct sample ids (fewer
than six). -/
def rawEx10 : DataFrame :=
  { cols := [sampleIdName, "tp53".toList],
    rows := [[Value.str ("S1"), Value.num 1],
             [Value.str ("S2"), Value.num 2],
             [Value.str ("S1"), Value.num 3]] }

end GBM

/-! ### Theorems.  Character-level lemmas about the normalizer -/

namespace GBM

theorem toNat_ofNat_of_lt (n : Nat) (h : n < 55296) : (Char.ofNat n).toNat = n := by
  have hv : n.isValidChar := Or.inl h
  simp [Char.ofNat, hv, Char.ofNatAux, Char.toNat, UInt32.toNat, BitVec.toNat_ofNatLt]

theorem lowerChar_not_upper (c : Char) : isUpperCh (lowerChar c) = false := by
  by_cases h : isUpperCh c = true
  · have hb : 65 ≤ c.toNat ∧ c.toNat ≤ 90 := by
      simpa [isUpperCh, Bool.and_eq_true] using h
    have ht : (lowerChar c).toNat = c.toNat + 32 := by
      rw [lowerChar, if_pos h]
      exact toNat_ofNat_of_lt _ (by omega)
    simp only [isUpperCh, ht, Bool.and_eq_false_iff, decide_eq_false_iff_not]
    right
    omega
  · rw [lowerChar, if_neg h]
    exact Bool.not_eq_true _ ▸ h

theorem lowerChar_fix (c : Char) (h : isUpperCh c = false) : lowerChar c = c := by
  rw [lowerChar, if_neg (by simp [h])]

theorem isOutCh_not_upper (c : Char) (h : isOutCh c = true) : isUpperCh c = false := by
  simp only [isOutCh, isLowerCh, isDigitCh, undCh, Bool.or_eq_true, Bool.and_eq_true,
    decide_eq_true_eq] at h
  simp only [isUpperCh, Bool.and_eq_false_iff, decide_eq_false_iff_not]
  omega

theorem isOutCh_word (c : Char) (h : isOutCh c = true) : isWordCh c = true := by
  simp only [isOutCh, Bool.or_eq_true] at h
  simp only [isWordCh, Bool.or_eq_true]
  tauto

theorem word_not_upper_out (c : Char) (hw : isWordCh c = true)
    (hu : isUpperCh c = false) : isOutCh c = true := by
  simp only [isWordCh, Bool.or_eq_true, hu] at hw
  simp only [isOutCh, Bool.or_eq_true]
  tauto

theorem mem_replaceNonWord (x : Char) (s : Name) (hx : x ∈ replaceNonWord s) :
    undCh x = true ∨ (isWordCh x = true ∧ x ∈ s) := by
  simp only [replaceNonWord, List.mem_map] at hx
  obtain ⟨c, hc, he⟩ := hx
  by_cases hw : isWordCh c = true
  · right
    rw [if_pos hw] at he
    exact ⟨he ▸ hw, he ▸ hc⟩
  · left
    rw [if_neg hw] at he
    subst he
    decide

theorem mem_stripLeadUnd (x : Char) (s : Name) (hx : x ∈ stripLeadUnd s) : x ∈ s := by
  match s with
  | [] => exact hx
  | c :: rest =>
    rw [stripLeadUnd] at hx
    split at hx
    · exact List.mem_cons_of_mem _ hx
    · exact hx

theorem mem_collapseAux (x : Char) : ∀ (b : Bool) (s : Name), x ∈ collapseAux b s → x ∈ s := by
  intro b s
  induction s generalizing b with
  | nil => intro h; exact absurd h (by simp [collapseAux])
  | cons c rest ih =>
    intro h
    rw [collapseAux] at h
    split at h
    · split at h
      · exact List.mem_cons_of_mem _ (ih _ h)
      · rcases List.mem_cons.mp h with h | h
        · exact h ▸ List.mem_cons_self _ _
        · exact List.mem_cons_of_mem _ (ih _ h)
    · rcases List.mem_cons.mp h with h | h
      · exact h ▸ List.mem_cons_self _ _
      · exact List.mem_cons_of_mem _ (ih _ h)

theorem mem_clean_col_name_out (x : Char) (s : Name) (hx : x ∈ clean_col_name s) :
    isOutCh x = true := by
  have h1 : x ∈ replaceNonWord (s.map lowerChar) := mem_collapseAux x false _ hx
  rcases mem_replaceNonWord x _ h1 with h | ⟨hw, hm⟩
  · simp [isOutCh, h]
  · obtain ⟨c, _, he⟩ := List.mem_map.mp hm
    exact word_not_upper_out x hw (he ▸ lowerChar_not_upper c)

theorem mem_clean_col_name_chunk_out (x : Char) (s : Name)
    (hx : x ∈ clean_col_name_chunk s) : isOutCh x = true := by
  have h1 : x ∈ replaceNonWord (stripLeadUnd (s.map lowerChar)) := mem_collapseAux x false _ hx
  rcases mem_replaceNonWord x _ h1 with h | ⟨hw, hm⟩
  · simp [isOutCh, h]
  · obtain ⟨c, _, he⟩ := List.mem_map.mp (mem_stripLeadUnd x _ hm)
    exact word_not_upper_out x hw (he ▸ lowerChar_not_upper c)

theorem collapseAux_true_head (s : Name) (c : Char) (t : Name)
    (h : collapseAux true s = c :: t) : undCh c = false := by
  induction s generalizing c t with
  | nil => exact absurd h (by simp [collapseAux])
  | cons d rest ih =>
    rw [collapseAux] at h
    split at h
    · exact ih c t h
    · next hd =>
      rcases List.cons.injEq .. ▸ h with ⟨rfl, _⟩
      exact Bool.not_eq_true _ ▸ hd

theorem noDblUnd_collapseAux : ∀ (s : Name) (b : Bool), noDblUnd (collapseAux b s) = true := by
  intro s
  induction s with
  | nil => intro b; rfl
  | cons c rest ih =>
    intro b
    rw [collapseAux]
    split
    · split
      · exact ih true
      · rcases hr : collapseAux true rest with _ | ⟨d, t⟩
        · rfl
        · have hd : undCh d = false := collapseAux_true_head rest d t hr
          have := ih true
          rw [hr] at this
          simp [noDblUnd, hd, this]
    · next hc =>
      rcases hr : collapseAux false rest with _ | ⟨d, t⟩
      · rfl
      · have := ih false
        rw [hr] at this
        simp [noDblUnd, Bool.not_eq_true _ ▸ hc, this]

theorem noDblUnd_tail (c : Char) (rest : Name) (h : noDblUnd (c :: rest) = true) :
    noDblUnd rest = true := by
  match rest with
  | [] => rfl
  | d :: t =>
    rw [noDblUnd, Bool.and_eq_true] at h
    exact h.2

theorem collapseAux_id (s : Name) (h : noDblUnd s = true) :
    collapseAux false s = s ∧
      (∀ c t, s = c :: t → undCh c = false → collapseAux true s = s) := by
  induction s with
  | nil => exact ⟨rfl, by intro c t hct; cases hct⟩
  | cons c rest ih =>
    obtain ⟨ihF, ihT⟩ := ih (noDblUnd_tail c rest h)
    have hfalse : undCh c = false → collapseAux false (c :: rest) = c :: rest := by
      intro hc
      rw [collapseAux, if_neg (by simp [hc]), ihF]
    constructor
    · by_cases hc : undCh c = true
      · rw [collapseAux, if_pos hc, if_neg (by simp)]
        congr 1
        match rest, h with
        | [], _ => rfl
        | d :: t, h =>
          rw [noDblUnd, Bool.and_eq_true] at h
          have hd : undCh d = false := by simpa [hc] using h.1
          exact ihT d t rfl hd
      · exact hfalse (Bool.not_eq_true _ ▸ hc)
    · intro c' t hct hc'
      rcases List.cons.injEq .. ▸ hct with ⟨rfl, rfl⟩
      rw [collapseAux, if_neg (by simp [hc']), ihF]

theorem mapIdOf {α : Type} (f : α → α) :
    ∀ l : List α, (∀ x ∈ l, f x = x) → l.map f = l := by
  intro l h
  induction l with
  | nil => rfl
  | cons a t ih =>
    simp only [List.map_cons]
    rw [h a (List.mem_cons_self a t), ih (fun x hx => h x (List.mem_cons_of_mem _ hx))]

end GBM

namespace GBM

theorem noDblUnd_clean_col_name (s : Name) : noDblUnd (clean_col_name s) = true :=
  noDblUnd_collapseAux (replaceNonWord (s.map lowerChar)) false

theorem noDblUnd_clean_col_name_chunk (s : Name) :
    noDblUnd (clean_col_name_chunk s) = true :=
  noDblUnd_collapseAux (replaceNonWord (stripLeadUnd (s.map lowerChar))) false

/-- C1, counterexample: the claim asserts that every normalized column
name matches `^[a-z0-9_]+$` with no leading, trailing or doubled
underscore.  On the table `exC1`, whose column names are `" foo"` and
`"foo "`, both normalizers produce `"_foo"` and `"foo_"`: a leading and
a trailing underscore survive, so the claimed property is false. -/
theorem C1_counterexample :
    ¬ (∀ n ∈ (clean_col_names exC1).cols, specNormalized n = true) ∧
      ¬ (∀ n ∈ (clean_col_names_chunk exC1).cols, specNormalized n = true) := by
  constructor
  · intro h
    exact absurd (h (clean_col_name (" foo".toList)) (by decide)) (by decide)
  · intro h
    exact absurd (h (clean_col_name_chunk (" foo".toList)) (by decide)) (by decide)

/-- C1, amended: after either variant of the Column Normalizer runs,
every output column name consists only of characters in `[a-z0-9_]` and
contains no doubled underscore.  (Leading and trailing underscores can
survive, as the counterexample shows; the original claim's
no-leading/no-trailing condition does not hold.) -/
theorem C1_normalizer_output_alphabet (df : DataFrame) :
    (∀ n ∈ (clean_col_names df).cols, n.all isOutCh = true ∧ noDblUnd n = true) ∧
      (∀ n ∈ (clean_col_names_chunk df).cols, n.all isOutCh = true ∧ noDblUnd n = true) := by
  constructor
  · intro n hn
    obtain ⟨s, _, rfl⟩ := List.mem_map.mp hn
    exact ⟨List.all_eq_true.mpr (fun x hx => mem_clean_col_name_out x s hx),
      noDblUnd_clean_col_name s⟩
  · intro n hn
    obtain ⟨s, _, rfl⟩ := List.mem_map.mp hn
    exact ⟨List.all_eq_true.mpr (fun x hx => mem_clean_col_name_chunk_out x s hx),
      noDblUnd_clean_col_name_chunk s⟩

/-- C1, witness: the amended theorem applied to the concrete table
`exC1`, evaluated on its first normalized column name `"_foo"`. -/
theorem C1_witness :
    (clean_col_name (" foo".toList)).all isOutCh = true ∧
      noDblUnd (clean_col_name (" foo".toList)) = true :=
  (C1_normalizer_output_alphabet exC1).1 (clean_col_name (" foo".toList)) (by decide)

/-- C4, counterexample: the claim asserts idempotence for the
normalizers of both script variants, but the `gene_chunk.py` normalizer
is not idempotent: `"__a"` normalizes to `"_a"`, which normalizes again
to `"a"` (the leading-underscore strip runs before the underscore
collapse, so a collapsed leading underscore is stripped on the second
pass). -/
theorem C4_counterexample :
    clean_col_name_chunk (clean_col_name_chunk ("__a".toList)) ≠
      clean_col_name_chunk ("__a".toList) := by decide

/-- C4, amended: the `gene.py` normalizer is idempotent — normalizing an
already-normalized name yields the same name.  (The `gene_chunk.py`
variant is not idempotent, as the counterexample shows.) -/
theorem C4_clean_col_name_idempotent (s : Name) :
    clean_col_name (clean_col_name s) = clean_col_name s := by
  have hall : ∀ x ∈ clean_col_name s, isOutCh x = true :=
    fun x hx => mem_clean_col_name_out x s hx
  have h1 : (clean_col_name s).map lowerChar = clean_col_name s :=
    mapIdOf _ _ (fun x hx => lowerChar_fix x (isOutCh_not_upper x (hall x hx)))
  have h2 : replaceNonWord (clean_col_name s) = clean_col_name s :=
    mapIdOf _ _ (fun x hx => if_pos (isOutCh_word x (hall x hx)))
  have h3 : collapseUnd (clean_col_name s) = clean_col_name s :=
    (collapseAux_id _ (noDblUnd_clean_col_name s)).1
  calc clean_col_name (clean_col_name s)
      = collapseUnd (replaceNonWord (clean_col_name s)) := by rw [clean_col_name, h1]
    _ = clean_col_name s := by rw [h2, h3]

end GBM

/-! ### Lemmas about the Type Coercer -/

namespace GBM

theorem coerceValue_isNumOrMissing (parse : String → Option Int) (v : Value) :
    isNumOrMissing (coerceValue parse v) = true := by
  match v with
  | Value.str s =>
    rw [coerceValue]
    rcases parse s with _ | n <;> rfl
  | Value.num n => rfl
  | Value.missing => rfl

theorem entry_set_self (r : List Value) (i : Nat) (v : Value) :
    entry (r.set i v) i = if i < r.length then v else entry r i := by
  by_cases h : i < r.length
  · simp [entry, List.getElem?_set_self h, h]
  · rw [List.set_eq_of_length_le (by omega)]
    simp [h]

theorem entry_set_ne (r : List Value) (i j : Nat) (v : Value) (h : j ≠ i) :
    entry (r.set i v) j = entry r j := by
  simp [entry, List.getElem?_set_ne (Ne.symm h)]

theorem entry_of_length_le (r : List Value) (i : Nat) (h : r.length ≤ i) :
    entry r i = Value.missing := by
  simp [entry, List.getElem?_eq_none h]

theorem idxOfName_some (n : Name) :
    ∀ (l : List Name) (i : Nat), idxOfName n l = some i → l[i]? = some n := by
  intro l
  induction l with
  | nil => intro i h; cases h
  | cons c rest ih =>
    intro i h
    rw [idxOfName] at h
    split at h
    · next hc =>
      cases h
      simp [hc]
    · rcases i with _ | i'
      · rcases idxOfName n rest with _ | k <;> simp_all
      · have h' : idxOfName n rest = some i' := by
          rcases hk : idxOfName n rest with _ | k
          · rw [hk] at h; cases h
          · rw [hk] at h
            simp only [Option.map_some'] at h
            cases h
            rfl
        simpa using ih i' h'

theorem rowStep_length (parse : String → Option Int) (cols : List Name)
    (r : List Value) (n : Name) : (rowStep parse cols r n).length = r.length := by
  rw [rowStep]
  rcases idxOfName n cols with _ | i
  · rfl
  · exact List.length_set ..

theorem rowFold_length (parse : String → Option Int) (cols names : List Name)
    (r : List Value) : (rowFold parse cols names r).length = r.length := by
  induction names generalizing r with
  | nil => rfl
  | cons n rest ih =>
    simp only [rowFold, List.foldl_cons]
    simp only [rowFold] at ih
    rw [ih, rowStep_length]

theorem rowStep_entry_ne (parse : String → Option Int) (cols : List Name)
    (r : List Value) (n : Name) (j : Nat) (h : idxOfName n cols ≠ some j) :
    entry (rowStep parse cols r n) j = entry r j := by
  rw [rowStep]
  rcases hk : idxOfName n cols with _ | i
  · rfl
  · exact entry_set_ne r i j _ (fun hji => h (hji ▸ hk))

theorem rowFold_entry_ne (parse : String → Option Int) (cols names : List Name)
    (r : List Value) (j : Nat) (h : ∀ n ∈ names, idxOfName n cols ≠ some j) :
    entry (rowFold parse cols names r) j = entry r j := by
  induction names generalizing r with
  | nil => rfl
  | cons n rest ih =>
    simp only [rowFold, List.foldl_cons]
    simp only [rowFold] at ih
    rw [ih _ (fun m hm => h m (List.mem_cons_of_mem _ hm)),
      rowStep_entry_ne _ _ _ _ _ (h n (List.mem_cons_self n rest))]

theorem rowFold_entry_at (parse : String → Option Int) (cols names : List Name)
    (r : List Value) (nm : Name) (i : Nat) (hi : idxOfName nm cols = some i)
    (hmem : nm ∈ names) (hcount : names.count nm = 1) :
    entry (rowFold parse cols names r) i = coerceValue parse (entry r i) := by
  induction names generalizing r with
  | nil => cases hmem
  | cons n rest ih =>
    simp only [rowFold, List.foldl_cons]
    by_cases hn : n = nm
    · subst hn
      have hrest : n ∉ rest := by
        rw [List.count_cons_self] at hcount
        exact List.count_eq_zero.mp (by omega)
      have hne : ∀ m ∈ rest, idxOfName m cols ≠ some i := by
        intro m hm hme
        have h1 : cols[i]? = some m := idxOfName_some m cols i hme
        have h2 : cols[i]? = some n := idxOfName_some n cols i hi
        rw [h1] at h2
        cases h2
        exact hrest hm
      have hstep : entry (rowStep parse cols r n) i = coerceValue parse (entry r i) := by
        rw [rowStep, hi]
        by_cases hlt : i < r.length
        · rw [entry_set_self, if_pos hlt]
        · rw [entry_set_self, if_neg hlt, entry_of_length_le r i (by omega)]
          rfl
      have := rowFold_entry_ne parse cols rest (rowStep parse cols r n) i hne
      simp only [rowFold] at this
      rw [this, hstep]
    · have hmem' : nm ∈ rest := by
        rcases List.mem_cons.mp hmem with h | h
        · exact absurd h.symm hn
        · exact h
      have hcount' : rest.count nm = 1 := by
        rwa [List.count_cons_of_ne (fun h => hn h.symm)] at hcount
      have hstep : entry (rowStep parse cols r n) i = entry r i := by
        apply rowStep_entry_ne
        intro hme
        have h1 : cols[i]? = some n := idxOfName_some n cols i hme
        have h2 : cols[i]? = some nm := idxOfName_some nm cols i hi
        rw [h1] at h2
        cases h2
        exact hn rfl
      have := ih (rowStep parse cols r n) hmem' hcount'
      simp only [rowFold] at this
      rw [this, hstep]

theorem coerceCols_cols (parse : String → Option Int) (names : List Name)
    (df : DataFrame) : (coerceCols parse names df).cols = df.cols := by
  induction names generalizing df with
  | nil => rfl
  | cons n rest ih =>
    simp only [coerceCols, List.foldl_cons]
    have h1 : (coerceStep parse df n).cols = df.cols := by
      rw [coerceStep]
      rcases columnIndex df n with _ | i <;> rfl
    simp only [coerceCols] at ih
    rw [ih, h1]

theorem coerceStep_rows_map (parse : String → Option Int) (df : DataFrame) (n : Name) :
    (coerceStep parse df n).rows = df.rows.map (fun r => rowStep parse df.cols r n) := by
  rw [coerceStep]
  rcases hk : columnIndex df n with _ | i
  · rw [columnIndex] at hk
    refine (mapIdOf _ df.rows (fun r _ => ?_)).symm
    rw [rowStep, hk]
  · rw [columnIndex] at hk
    simp only
    apply List.map_congr_left
    intro r _
    rw [rowStep, hk]

theorem coerceCols_rows_map (parse : String → Option Int) (names : List Name)
    (df : DataFrame) :
    (coerceCols parse names df).rows = df.rows.map (rowFold parse df.cols names) := by
  induction names generalizing df with
  | nil => exact (mapIdOf _ df.rows (fun r _ => rfl)).symm
  | cons n rest ih =>
    simp only [coerceCols, List.foldl_cons]
    simp only [coerceCols] at ih
    rw [ih (coerceStep parse df n)]
    have hc : (coerceStep parse df n).cols = df.cols := by
      rw [coerceStep]
      rcases columnIndex df n with _ | i <;> rfl
    rw [hc, coerceStep_rows_map, List.map_map]
    apply List.map_congr_left
    intro r _
    rw [Function.comp_apply, rowFold, rowFold, List.foldl_cons]

end GBM

namespace GBM

/-- C5: for every designated numeric column present in the table, after
the Type Coercer runs every value in that column is a number or the
missing marker — never a raw string; each cell is exactly the coercion
of the original cell (so an unparseable token becomes the missing
marker, not zero); and no row or column is dropped. -/
theorem C5_coercion_totality (parse : String → Option Int) (df : DataFrame)
    (nm : Name) (i : Nat) (hmem : nm ∈ numeric_clinical_cols)
    (hi : columnIndex df nm = some i) :
    ((coerceCols parse numeric_clinical_cols df).cols = df.cols ∧
      (coerceCols parse numeric_clinical_cols df).rows.length = df.rows.length) ∧
    (∀ k : Nat, ((coerceCols parse numeric_clinical_cols df).rows[k]?).map (fun r => entry r i) =
      (df.rows[k]?).map (fun r => coerceValue parse (entry r i))) ∧
    (∀ r ∈ (coerceCols parse numeric_clinical_cols df).rows,
      isNumOrMissing (entry r i) = true) ∧
    (∀ s, parse s = none → coerceValue parse (Value.str s) = Value.missing) := by
  rw [columnIndex] at hi
  have hcount : numeric_clinical_cols.count nm = 1 := by
    simp only [numeric_clinical_cols, List.mem_cons, List.not_mem_nil, or_false] at hmem
    rcases hmem with rfl | rfl | rfl | rfl <;> decide
  have hentry : ∀ r : List Value,
      entry (rowFold parse df.cols numeric_clinical_cols r) i =
        coerceValue parse (entry r i) :=
    fun r => rowFold_entry_at parse df.cols numeric_clinical_cols r nm i hi hmem hcount
  refine ⟨⟨coerceCols_cols .., by rw [coerceCols_rows_map, List.length_map]⟩, ?_, ?_, ?_⟩
  · intro k
    rw [coerceCols_rows_map, List.getElem?_map]
    rcases df.rows[k]? with _ | r
    · rfl
    · simp only [Option.map_some']
      rw [hentry r]
  · intro r hr
    rw [coerceCols_rows_map] at hr
    obtain ⟨r0, _, rfl⟩ := List.mem_map.mp hr
    rw [hentry r0]
    exact coerceValue_isNumOrMissing parse (entry r0 i)
  · intro s hs
    simp [coerceValue, hs]

/-- C5, witness: on the concrete clinical table `clinEx5`, whose
`death_days_to` column holds the token `not reported`, the coerced cell
is the missing marker and no row is dropped. -/
theorem C5_witness :
    ((coerceCols parseEx numeric_clinical_cols clinEx5).rows[0]?).map (fun r => entry r 1) =
      some Value.missing ∧
    (coerceCols parseEx numeric_clinical_cols clinEx5).rows.length = clinEx5.rows.length := by
  have h := C5_coercion_totality parseEx clinEx5 ("death_days_to".toList) 1
    (by decide) (by decide)
  refine ⟨?_, h.1.2⟩
  rw [h.2.1 0]
  decide

/-- C9: the clinical branch of `gene.py` never filters rows: the output
has exactly as many rows as the input in the same positions, each row
keeps its length, the column names are the normalized input names, and
every column whose normalized name is not one of the four designated
numeric columns has all its values unchanged. -/
theorem C9_clinical_frame_effect (parse : String → Option Int) (df : DataFrame) :
    (clinical_stage parse df).cols = df.cols.map clean_col_name ∧
    (clinical_stage parse df).rows.length = df.rows.length ∧
    (∀ k : Nat, ((clinical_stage parse df).rows[k]?).map List.length =
      (df.rows[k]?).map List.length) ∧
    (∀ j nm, (clinical_stage parse df).cols[j]? = some nm →
      nm ∉ numeric_clinical_cols →
      ∀ k : Nat, ((clinical_stage parse df).rows[k]?).map (fun r => entry r j) =
        (df.rows[k]?).map (fun r => entry r j)) := by
  have hcols : (clinical_stage parse df).cols = df.cols.map clean_col_name := by
    rw [clinical_stage, coerceCols_cols]
    rfl
  have hrows : (clinical_stage parse df).rows =
      df.rows.map (rowFold parse (df.cols.map clean_col_name) numeric_clinical_cols) := by
    rw [clinical_stage, coerceCols_rows_map]
    rfl
  refine ⟨hcols, by rw [hrows, List.length_map], ?_, ?_⟩
  · intro k
    rw [hrows, List.getElem?_map]
    rcases df.rows[k]? with _ | r
    · rfl
    · simp only [Option.map_some']
      rw [rowFold_length]
  · intro j nm hj hnm k
    rw [hcols] at hj
    have hne : ∀ n ∈ numeric_clinical_cols,
        idxOfName n (df.cols.map clean_col_name) ≠ some j := by
      intro n hn hidx
      have h1 := idxOfName_some n (df.cols.map clean_col_name) j hidx
      rw [hj] at h1
      cases h1
      exact hnm hn
    rw [hrows, List.getElem?_map]
    rcases df.rows[k]? with _ | r
    · rfl
    · simp only [Option.map_some']
      rw [rowFold_entry_ne parse (df.cols.map clean_col_name) numeric_clinical_cols r j hne]

/-- C9, witness: on the concrete table `clinEx9`, the non-designated
column `gender` (position 1) is unchanged by the clinical stage. -/
theorem C9_witness :
    ((clinical_stage parseEx clinEx9).rows[0]?).map (fun r => entry r 1) =
      (clinEx9.rows[0]?).map (fun r => entry r 1) :=
  (C9_clinical_frame_effect parseEx clinEx9).2.2.2 1 ("gender".toList)
    (by decide) (by decide) 0

end GBM

namespace GBM

/-- C3: after the Referential Filter runs, every `sample_id` value of
the dependent output also occurs in the master table's `sample_id`
column — the dependent output ids are a subset of the master ids. -/
theorem C3_filter_subset (master dep : DataFrame) (im id0 : Nat) (v : Value)
    (_h1 : columnIndex master sampleIdName = some im)
    (_h2 : columnIndex dep sampleIdName = some id0)
    (hv : v ∈ columnValues (filterBySampleIds (columnValues master im) id0 dep) id0) :
    v ∈ columnValues master im := by
  rw [columnValues, filterBySampleIds] at hv
  obtain ⟨r, hr, rfl⟩ := List.mem_map.mp hv
  have hmem := List.mem_filter.mp hr
  simpa using hmem.2

/-- C3, witness: on the concrete master `masterEx` (ids S1, S2) and
dependent `depEx` (ids S1, S3), the id S1 occurring in the filtered
output also occurs in the master column. -/
theorem C3_witness :
    Value.str ("S1") ∈ columnValues (filterBySampleIds (columnValues masterEx 0) 0 depEx) 0 ∧
      Value.str ("S1") ∈ columnValues masterEx 0 :=
  ⟨by decide, C3_filter_subset masterEx depEx 0 0 (Value.str ("S1")) rfl rfl (by decide)⟩

/-- C8, counterexample: the claim says 2 rows are dropped from the
survival table.  The survival table of the scenario has 3 rows (S1, S2,
S4) and the filter retains the S1 and S2 rows, so exactly 1 row is
dropped, not 2. -/
theorem C8_counterexample :
    ¬ (survEx8.rows.length -
        (filterBySampleIds (columnValues clinEx8 0) 0 survEx8).rows.length = 2) := by
  decide

/-- C8, amended: for the clinical master with ids S1, S2, S3 and the
survival table with one row each for S1, S2, S4, the filtered survival
output retains exactly the S1 and S2 rows (2 rows kept), 1 row is
dropped, and S4 is excluded. -/
theorem C8_example_scenario :
    (filterBySampleIds (columnValues clinEx8 0) 0 survEx8).rows =
      [[Value.str ("S1"), Value.num 1], [Value.str ("S2"), Value.num 2]] ∧
    (filterBySampleIds (columnValues clinEx8 0) 0 survEx8).rows.length = 2 ∧
    survEx8.rows.length -
      (filterBySampleIds (columnValues clinEx8 0) 0 survEx8).rows.length = 1 ∧
    Value.str ("S4") ∉ columnValues (filterBySampleIds (columnValues clinEx8 0) 0 survEx8) 0 := by
  decide

end GBM

/-! ### Lemmas about the Reshaper (melt) -/

namespace GBM

theorem idxOfName_lt (n : Name) (l : List Name) (i : Nat) (h : idxOfName n l = some i) :
    i < l.length := by
  rcases List.getElem?_eq_some.mp (idxOfName_some n l i h) with ⟨hlt, _⟩
  exact hlt

theorem sum_map_const_length {β : Type} (L : List β) (g : β → Nat) (m : Nat)
    (h : ∀ x ∈ L, g x = m) : (L.map g).sum = L.length * m := by
  induction L with
  | nil => simp
  | cons y ys ih =>
    rw [List.map_cons, List.sum_cons, h y (List.mem_cons_self y ys),
      ih (fun x hx => h x (List.mem_cons_of_mem _ hx)), List.length_cons]
    rw [Nat.succ_mul]
    omega

theorem filter_range_ne_length (n i : Nat) (hi : i < n) :
    ((List.range n).filter (fun j => decide ¬(j = i))).length = n - 1 := by
  induction n with
  | zero => exact absurd hi (by omega)
  | succ n ih =>
    rw [List.range_succ, List.filter_append]
    by_cases h : i = n
    · subst h
      have h1 : (List.range i).filter (fun j => decide ¬(j = i)) = List.range i := by
        apply List.filter_eq_self.mpr
        intro j hj
        have := List.mem_range.mp hj
        simp
        omega
      have h2 : [i].filter (fun j => decide ¬(j = i)) = [] := by simp
      rw [h1, h2, List.length_append, List.length_range]
      simp
    · have h2 : [n].filter (fun j => decide ¬(j = i)) = [n] := by
        simp
        omega
      rw [List.length_append, ih (by omega), h2]
      simp
      omega

theorem flatten_getElem?_uniform {β : Type} (L : List (List β)) (m : Nat)
    (hm : ∀ x ∈ L, x.length = m) :
    ∀ (a b : Nat) (x : List β), b < m → L[a]? = some x →
      L.flatten[a * m + b]? = x[b]? := by
  induction L with
  | nil => intro a b x _ hx; cases hx
  | cons y ys ih =>
    intro a b x hb hx
    rw [List.flatten_cons]
    rcases a with _ | a'
    · rw [List.getElem?_cons_zero] at hx
      have hxy : x = y := by injection hx with h; exact h.symm
      rw [Nat.zero_mul, Nat.zero_add, hxy]
      exact List.getElem?_append_left
        (by rw [hm y (List.mem_cons_self y ys)]; exact hb)
    · rw [List.getElem?_cons_succ] at hx
      have hy : y.length = m := hm y (List.mem_cons_self y ys)
      have hidx : (a' + 1) * m + b = y.length + (a' * m + b) := by
        rw [hy, Nat.succ_mul]
        omega
      rw [hidx, List.getElem?_append_right (by omega)]
      have : y.length + (a' * m + b) - y.length = a' * m + b := by omega
      rw [this]
      exact ih (fun z hz => hm z (List.mem_cons_of_mem _ hz)) a' b x hb hx

/-- C2: the long output of the Reshaper has exactly
(number of retained rows) × (number of gene columns) rows, and the row
at flat position `a * |rows| + b` is exactly the cell of gene column `j`
(the `a`-th non-id column) and input row `b` — one output row per cell,
no duplication, no omission. -/
theorem C2_melt_cardinality (df : DataFrame) (i : Nat)
    (hi : columnIndex df sampleIdName = some i) :
    (melt df i).rows.length = df.rows.length * (df.cols.length - 1) ∧
    (∀ (a b j : Nat) (r : List Value),
      ((List.range df.cols.length).filter (fun j' => decide ¬(j' = i)))[a]? = some j →
      df.rows[b]? = some r →
      (melt df i).rows[a * df.rows.length + b]? =
        some [entry r i, Value.str (String.mk (df.cols.getD j [])), entry r j]) := by
  rw [columnIndex] at hi
  have hlt : i < df.cols.length := idxOfName_lt sampleIdName df.cols i hi
  constructor
  · show (meltRows df i).length = df.rows.length * (df.cols.length - 1)
    rw [meltRows, List.length_flatten, List.map_map]
    rw [sum_map_const_length _ _ df.rows.length
      (fun j _ => by rw [Function.comp_apply, List.length_map])]
    rw [filter_range_ne_length df.cols.length i hlt]
    exact Nat.mul_comm ..
  · intro a b j r ha hb
    have hbl : b < df.rows.length := by
      rcases List.getElem?_eq_some.mp hb with ⟨h, _⟩
      exact h
    show (meltRows df i)[a * df.rows.length + b]? = _
    rw [meltRows]
    rw [flatten_getElem?_uniform _ df.rows.length
      (fun x hx => by
        obtain ⟨j0, _, rfl⟩ := List.mem_map.mp hx
        exact List.length_map ..)
      a b
      (df.rows.map (fun r0 =>
        [entry r0 i, Value.str (String.mk (df.cols.getD j [])), entry r0 j]))
      hbl
      (by rw [List.getElem?_map, ha]; rfl)]
    rw [List.getElem?_map, hb]
    rfl

/-- C2, witness: melting the concrete wide table `exprEx` (2 samples,
2 gene columns) yields 4 rows, and the row at flat position 1 is the
cell (S2, tp53, 7). -/
theorem C2_witness :
    (melt exprEx 0).rows.length = 4 ∧
    (melt exprEx 0).rows[1]? =
      some [Value.str ("S2"), Value.str ("tp53"), Value.num 7] := by
  have h := C2_melt_cardinality exprEx 0 (by decide)
  constructor
  · rw [h.1]
    decide
  · have h2 := h.2 0 1 1 [Value.str ("S2"), Value.num 7, Value.num 8]
      (by decide) (by decide)
    rw [show 0 * exprEx.rows.length + 1 = 1 from by decide] at h2
    rw [h2]
    decide

end GBM

namespace GBM

theorem columnIndex_filterBySampleIds (ids : List Value) (i : Nat) (df : DataFrame)
    (n : Name) : columnIndex (filterBySampleIds ids i df) n = columnIndex df n := rfl

/-- C6: if any of the three input files is missing, the pipeline stops
with the file error and produces no output frame; if all three inputs
load and carry a `sample_id` column (as the spec's input contract
requires), the pipeline succeeds and all three output frames are
produced. -/
theorem C6_exit_behavior (parse : String → Option Int)
    (c? s? e? : Option DataFrame) :
    ((c? = none ∨ s? = none ∨ e? = none) →
      genePipeline parse c? s? e? = Except.error ("FileNotFoundError")) ∧
    (∀ c s e : DataFrame, c? = some c → s? = some s → e? = some e →
      ∀ ic iS iE : Nat, columnIndex (clean_col_names c) sampleIdName = some ic →
        columnIndex (clean_col_names s) sampleIdName = some iS →
        columnIndex (clean_col_names e) sampleIdName = some iE →
        ∃ out : DataFrame × DataFrame × DataFrame,
          genePipeline parse c? s? e? = Except.ok out) := by
  constructor
  · intro h
    rcases h with rfl | rfl | rfl
    · cases s? <;> cases e? <;> rfl
    · cases c? <;> cases e? <;> rfl
    · cases c? <;> cases s? <;> rfl
  · intro c s e hc hs he ic iS iE hic his hie
    subst hc
    subst hs
    subst he
    simp only [genePipeline, columnIndex_filterBySampleIds, hic, his, hie]
    exact ⟨_, rfl⟩

/-- C6, witness: with the clinical input missing the pipeline reports
the file error, and with the three concrete inputs `cEx6`, `sEx6`,
`eEx6` present it returns all three outputs. -/
theorem C6_witness :
    genePipeline parseEx none (some sEx6) (some eEx6) =
      Except.error ("FileNotFoundError") ∧
    (∃ out : DataFrame × DataFrame × DataFrame,
      genePipeline parseEx (some cEx6) (some sEx6) (some eEx6) = Except.ok out) := by
  constructor
  · exact (C6_exit_behavior parseEx none (some sEx6) (some eEx6)).1 (Or.inl rfl)
  · exact (C6_exit_behavior parseEx (some cEx6) (some sEx6) (some eEx6)).2
      cEx6 sEx6 eEx6 rfl rfl rfl 0 0 0 (by decide) (by decide) (by decide)

end GBM

/-! ### Lemmas about `Series.unique` and the variant pipeline -/

namespace GBM

theorem mem_uniqAux (v : Value) : ∀ (l seen : List Value),
    v ∈ uniqAux seen l ↔ (v ∈ l ∧ v ∉ seen) := by
  intro l
  induction l with
  | nil => intro seen; simp [uniqAux]
  | cons w rest ih =>
    intro seen
    rw [uniqAux]
    by_cases hw : w ∈ seen
    · rw [if_pos hw, ih seen, List.mem_cons]
      constructor
      · rintro ⟨h1, h2⟩
        exact ⟨Or.inr h1, h2⟩
      · rintro ⟨rfl | h1, h2⟩
        · exact absurd hw h2
        · exact ⟨h1, h2⟩
    · rw [if_neg hw, List.mem_cons, ih (w :: seen), List.mem_cons]
      simp only [List.mem_cons, not_or]
      constructor
      · rintro (rfl | ⟨h1, h2, h3⟩)
        · exact ⟨Or.inl rfl, hw⟩
        · exact ⟨Or.inr h1, h3⟩
      · rintro ⟨rfl | h1, h2⟩
        · exact Or.inl rfl
        · by_cases hvw : v = w
          · exact Or.inl hvw
          · exact Or.inr ⟨h1, hvw, h2⟩

theorem nodup_uniqAux : ∀ (l seen : List Value), (uniqAux seen l).Nodup := by
  intro l
  induction l with
  | nil => intro seen; simp [uniqAux]
  | cons w rest ih =>
    intro seen
    rw [uniqAux]
    by_cases hw : w ∈ seen
    · rw [if_pos hw]
      exact ih seen
    · rw [if_neg hw]
      refine List.nodup_cons.mpr ⟨?_, ih (w :: seen)⟩
      intro hmem
      exact ((mem_uniqAux w rest (w :: seen)).mp hmem).2 (List.mem_cons_self w seen)

theorem sublist_uniqAux : ∀ (l seen : List Value), List.Sublist (uniqAux seen l) l := by
  intro l
  induction l with
  | nil => intro seen; simp [uniqAux]
  | cons w rest ih =>
    intro seen
    rw [uniqAux]
    by_cases hw : w ∈ seen
    · rw [if_pos hw]
      exact (ih seen).cons w
    · rw [if_neg hw]
      exact (ih (w :: seen)).cons₂ w

theorem uniqAux_cons_mem (seen : List Value) (w : Value) (rest : List Value)
    (hw : w ∈ seen) : uniqAux seen (w :: rest) = uniqAux seen rest := by
  rw [uniqAux, if_pos hw]

theorem uniqAux_cons_not_mem (seen : List Value) (w : Value) (rest : List Value)
    (hw : w ∉ seen) : uniqAux seen (w :: rest) = w :: uniqAux (w :: seen) rest := by
  rw [uniqAux, if_neg hw]

theorem uniqAux_take_first (l : List Value) : ∀ (seen : List Value) (k : Nat),
    ∃ m : Nat, uniqAux seen (l.take m) = (uniqAux seen l).take k ∧
      ∀ v ∈ l.take m, v ∈ seen ∨ v ∈ (uniqAux seen l).take k := by
  induction l with
  | nil =>
    intro seen k
    exact ⟨0, by simp [uniqAux], by simp⟩
  | cons w rest ih =>
    intro seen k
    by_cases hw : w ∈ seen
    · obtain ⟨m, hm1, hm2⟩ := ih seen k
      refine ⟨m + 1, ?_, ?_⟩
      · rw [List.take_succ_cons, uniqAux_cons_mem seen w (rest.take m) hw,
          uniqAux_cons_mem seen w rest hw]
        exact hm1
      · intro v hv
        rw [List.take_succ_cons, List.mem_cons] at hv
        rw [uniqAux_cons_mem seen w rest hw]
        rcases hv with rfl | hv
        · exact Or.inl hw
        · exact hm2 v hv
    · rcases k with _ | k0
      · exact ⟨0, by simp [uniqAux], by simp⟩
      · obtain ⟨m, hm1, hm2⟩ := ih (w :: seen) k0
        refine ⟨m + 1, ?_, ?_⟩
        · rw [List.take_succ_cons, uniqAux_cons_not_mem seen w (rest.take m) hw,
            uniqAux_cons_not_mem seen w rest hw, List.take_succ_cons, hm1]
        · intro v hv
          rw [List.take_succ_cons, List.mem_cons] at hv
          rw [uniqAux_cons_not_mem seen w rest hw, List.take_succ_cons]
          rcases hv with rfl | hv
          · exact Or.inr (List.mem_cons_self ..)
          · rcases hm2 v hv with h | h
            · rw [List.mem_cons] at h
              rcases h with rfl | h
              · exact Or.inr (List.mem_cons_self ..)
              · exact Or.inl h
            · exact Or.inr (List.mem_cons_of_mem _ h)

theorem columnIndex_clean_chunk_filter (ids : List Value) (i : Nat) (df : DataFrame)
    (n : Name) :
    columnIndex (clean_col_names_chunk (filterBySampleIds ids i df)) n =
      columnIndex (clean_col_names_chunk df) n := rfl

end GBM

namespace GBM

/-- C7: with at least six distinct sample ids in the raw expression
file, the variant pipeline selects exactly six ids — pairwise distinct,
drawn from the file's id column in order, and exactly the distinct ids
of an initial segment of that column (the first six found); it keeps
exactly the rows whose id is among them; and it returns a single
long-format output whose columns are `sample_id`, `gene_symbol`,
`expression_value`. -/
theorem C7_chunk_first_six (parse : String → Option Int) (raw : DataFrame) (i j : Nat)
    (hi : columnIndex raw sampleIdName = some i)
    (h6 : 6 ≤ (uniqueInOrder (columnValues raw i)).length)
    (hj : columnIndex (clean_col_names_chunk raw) sampleIdName = some j) :
    ((uniqueInOrder (columnValues raw i)).take 6).length = 6 ∧
    ((uniqueInOrder (columnValues raw i)).take 6).Nodup ∧
    List.Sublist ((uniqueInOrder (columnValues raw i)).take 6) (columnValues raw i) ∧
    (∃ m : Nat, uniqueInOrder ((columnValues raw i).take m) =
        (uniqueInOrder (columnValues raw i)).take 6 ∧
      ∀ v ∈ (columnValues raw i).take m,
        v ∈ (uniqueInOrder (columnValues raw i)).take 6) ∧
    (∀ r : List Value,
      r ∈ (filterBySampleIds ((uniqueInOrder (columnValues raw i)).take 6) i raw).rows ↔
        (r ∈ raw.rows ∧ entry r i ∈ (uniqueInOrder (columnValues raw i)).take 6)) ∧
    chunkPipeline parse (some raw) =
      Except.ok (coerceCols parse [expressionValueName]
        (melt (clean_col_names_chunk
          (filterBySampleIds ((uniqueInOrder (columnValues raw i)).take 6) i raw)) j)) ∧
    (coerceCols parse [expressionValueName]
        (melt (clean_col_names_chunk
          (filterBySampleIds ((uniqueInOrder (columnValues raw i)).take 6) i raw)) j)).cols =
      [sampleIdName, geneSymbolName, expressionValueName] := by
  refine ⟨?_, ?_, ?_, ?_, ?_, ?_, ?_⟩
  · rw [List.length_take]
    omega
  · exact List.Nodup.sublist (List.take_sublist ..) (nodup_uniqAux _ [])
  · exact (List.take_sublist ..).trans (sublist_uniqAux _ [])
  · obtain ⟨m, hm1, hm2⟩ := uniqAux_take_first (columnValues raw i) [] 6
    refine ⟨m, hm1, ?_⟩
    intro v hv
    rcases hm2 v hv with h | h
    · exact absurd h (List.not_mem_nil v)
    · exact h
  · intro r
    rw [filterBySampleIds]
    simp only [List.mem_filter, decide_eq_true_eq]
  · simp only [chunkPipeline, hi, columnIndex_clean_chunk_filter, hj]
  · rw [coerceCols_cols]
    rfl

/-- C7, witness: on the concrete raw table `rawEx7` with seven distinct
ids, the selection has exactly six ids and the pipeline returns the
single long-format frame. -/
theorem C7_witness :
    ((uniqueInOrder (columnValues rawEx7 0)).take 6).length = 6 ∧
    chunkPipeline parseEx (some rawEx7) =
      Except.ok (coerceCols parseEx [expressionValueName]
        (melt (clean_col_names_chunk
          (filterBySampleIds ((uniqueInOrder (columnValues rawEx7 0)).take 6) 0 rawEx7)) 0)) := by
  have h := C7_chunk_first_six parseEx rawEx7 0 0 (by decide) (by decide) (by decide)
  exact ⟨h.1, h.2.2.2.2.2.1⟩

/-- C10: when the raw expression file has fewer than six distinct
sample ids, the selection takes all of them (its length is
min 6 (number of distinct ids), in first-occurrence order), the filter
keeps every row of the input, and the variant pipeline completes
without error. -/
theorem C10_chunk_fewer_than_six (parse : String → Option Int) (raw : DataFrame)
    (i j : Nat) (hi : columnIndex raw sampleIdName = some i)
    (hlt : (uniqueInOrder (columnValues raw i)).length < 6)
    (hj : columnIndex (clean_col_names_chunk raw) sampleIdName = some j) :
    (uniqueInOrder (columnValues raw i)).take 6 = uniqueInOrder (columnValues raw i) ∧
    ((uniqueInOrder (columnValues raw i)).take 6).length =
      min 6 (uniqueInOrder (columnValues raw i)).length ∧
    (filterBySampleIds ((uniqueInOrder (columnValues raw i)).take 6) i raw).rows = raw.rows ∧
    chunkPipeline parse (some raw) =
      Except.ok (coerceCols parse [expressionValueName]
        (melt (clean_col_names_chunk
          (filterBySampleIds ((uniqueInOrder (columnValues raw i)).take 6) i raw)) j)) := by
  have htake : (uniqueInOrder (columnValues raw i)).take 6 =
      uniqueInOrder (columnValues raw i) :=
    List.take_of_length_le (by omega)
  refine ⟨htake, List.length_take .., ?_, ?_⟩
  · show (raw.rows.filter _) = raw.rows
    apply List.filter_eq_self.mpr
    intro r hr
    rw [decide_eq_true_eq, htake]
    have hcv : entry r i ∈ columnValues raw i := List.mem_map.mpr ⟨r, hr, rfl⟩
    exact (mem_uniqAux (entry r i) (columnValues raw i) []).mpr
      ⟨hcv, List.not_mem_nil _⟩
  · simp only [chunkPipeline, hi, columnIndex_clean_chunk_filter, hj]

/-- C10, witness: on the concrete raw table `rawEx10` with two distinct
ids, every row is kept and the pipeline returns the long-format frame. -/
theorem C10_witness :
    (filterBySampleIds ((uniqueInOrder (columnValues rawEx10 0)).take 6) 0 rawEx10).rows =
      rawEx10.rows ∧
    chunkPipeline parseEx (some rawEx10) =
      Except.ok (coerceCols parseEx [expressionValueName]
        (melt (clean_col_names_chunk
          (filterBySampleIds ((uniqueInOrder (columnValues rawEx10 0)).take 6) 0 rawEx10)) 0)) := by
  have h := C10_chunk_fewer_than_six parseEx rawEx10 0 0 (by decide) (by decide) (by decide)
  exact ⟨h.2.2.1, h.2.2.2⟩

end GBM
